import Mathlib

/-!
Verification development for the byte-level Brzozowski-derivative engine in
`genlm_grammar/derivatives.py`.

The Python module keeps a global heap of grammar nodes: every `Grammar`
object carries a mutable `BookKeeping` record, node construction goes
through `cached` factory functions that consult an `INPUT_CACHE` and an
`OUTPUT_CACHE`, recursive grammars are tied with `Lazy` thunks, and the
three semantic attributes (`matches_empty`, `possible_starts`,
`could_have_matches`) plus the per-byte `derivatives` table are computed by
a work-list solver (`BookKeeper`).

We embed this shallowly: nodes live in a list indexed by `NodeId` (object
identity becomes index equality, matching the source where `__eq__` is
`self is other`), the global mutable state is threaded through a state
monad over `Except`, thunks are defunctionalized to the closure shapes that
actually occur (returning an existing node, the `seq`-style
`union(epsilon, cat(child, self))` body, or a non-grammar value), and
every unboundedly recursive loop takes explicit fuel, returning
`Err.outOfFuel` when it runs out.  Python `assert` failures are
`Err.assertionError`.  Sets (`frozenset`) are modelled as sorted
duplicate-free lists; Python `set` objects whose iteration order the
interpreter observes are modelled as insertion-ordered duplicate-free
lists, which fixes one concrete iteration order among those Python allows.
-/

/-- Node identity: index into the global node list.  The source compares
grammars with `is` and hashes by `object.__hash__`, so identity of ids is
the faithful notion of equality. -/
abbrev NodeId := Nat

/-- The four bookkeeping attributes handled by `book_keeping_property` /
`BookKeeper` (`BookKeepingTasks` in the source). -/
inductive PropName
  | matches_empty
  | possible_starts
  | could_have_matches
  | derivatives
deriving DecidableEq, Repr

/-- `ANY_BYTE = frozenset(range(256))`. -/
def ANY_BYTE : List Nat := List.range 256

/-- Which of the four tasks have reached their fixed point for a node
(the `complete` set of `BookKeeping`). -/
structure CompleteSet where
  matches_empty : Bool := false
  possible_starts : Bool := false
  could_have_matches : Bool := false
  derivatives : Bool := false
deriving DecidableEq, Repr

/-- `all_complete()`. -/
def all_complete : CompleteSet :=
  { matches_empty := true, possible_starts := true,
    could_have_matches := true, derivatives := true }

def CompleteSet.has (c : CompleteSet) (p : PropName) : Bool :=
  match p with
  | .matches_empty => c.matches_empty
  | .possible_starts => c.possible_starts
  | .could_have_matches => c.could_have_matches
  | .derivatives => c.derivatives

def CompleteSet.add (c : CompleteSet) (p : PropName) : CompleteSet :=
  match p with
  | .matches_empty => { c with matches_empty := true }
  | .possible_starts => { c with possible_starts := true }
  | .could_have_matches => { c with could_have_matches := true }
  | .derivatives => { c with derivatives := true }

/-- Per-node mutable record, defaults as in the `@dataclass`:
`matches_empty = False`, `possible_starts = ANY_BYTE`,
`could_have_matches = False`, `derivatives = {}`, `complete = set()`. -/
structure BookKeeping where
  matches_empty : Bool := false
  possible_starts : List Nat := ANY_BYTE
  could_have_matches : Bool := false
  derivatives : List (Nat × NodeId) := []
  complete : CompleteSet := {}
deriving DecidableEq, Repr

/-- Defunctionalized thunks for `Lazy`: the closure shapes that occur in
the module and its clients.  `ref g` is `lambda: g` for an existing node;
`unionEpsCat child self` is the `seq` body
`lambda: union(epsilon, cat(child, self))` where `self` is the `Lazy`
node being defined; `bad n` is a thunk returning the non-grammar `n`. -/
inductive ThunkCode
  | ref (g : NodeId)
  | unionEpsCat (child self : NodeId)
  | bad (n : Int)
deriving DecidableEq, Repr

/-- The `Lazy.__thunk` slot: unevaluated thunk, or the forced value
(a grammar for `valueOf`, a non-grammar for `badValue`).
`has_been_forced` is `isinstance(__thunk, Grammar)`, i.e. `valueOf`. -/
inductive LazySlot
  | thunk (t : ThunkCode)
  | valueOf (g : NodeId)
  | badValue (n : Int)
deriving DecidableEq, Repr

/-- The closed set of grammar node shapes (the `Grammar` subclasses). -/
inductive Shape
  | Null
  | Epsilon
  | Chars (cs : List Nat)
  | Any (n : Int)
  | Cat (l r : NodeId)
  | Union (children : List NodeId)
  | Lazy (slot : LazySlot)
deriving DecidableEq, Repr

structure Node where
  shape : Shape
  book_keeping : BookKeeping
deriving DecidableEq, Repr

/-- A solver target: `(property_name, grammar)`. -/
abbrev Target := PropName × NodeId

/-- A stored bookkeeping value, tagged by kind. -/
inductive PropValue
  | b (v : Bool)
  | s (v : List Nat)
  | d (v : List (Nat × NodeId))
deriving DecidableEq, Repr

/-- Keys of the (never written) `INPUT_CACHE`: `(fn.__name__, *args)`
after the wrapper's set/list normalization. -/
inductive CacheArg
  | node (g : NodeId)
  | byteset (cs : List Nat)
  | int (n : Int)
  | bytes (s : List Nat)
deriving DecidableEq, Repr

abbrev CacheKey := String × List CacheArg

/-- Solver scratch state (`BookKeeper.__init__`). -/
structure BookKeeper where
  targets : List Target := []
  watches : List (Target × List Target) := []
  dirty : List Target := []
  values_requested : List Target := []
deriving DecidableEq, Repr

/-- The global mutable state of the module: the node heap, the two caches
of `cached`, and the `CURRENT_BOOK_KEEPER` slot. -/
structure St where
  nodes : List Node := []
  output_cache : List NodeId := []
  input_cache : List (CacheKey × NodeId) := []
  current : Option BookKeeper := none
deriving DecidableEq, Repr

/-- Errors: a failed Python `assert` (or other fatal type error raised by
the source), or exhaustion of the fuel bounding unboundedly recursive
loops (which models non-termination, not an error of the source). -/
inductive Err
  | assertionError
  | outOfFuel
deriving DecidableEq, Repr

abbrev M (α : Type) := StateT St (Except Err) α

def throwAssert {α : Type} : M α := throw Err.assertionError

def getNode (g : NodeId) : M Node := do
  match (← get).nodes.get? g with
  | some n => pure n
  | none => throwAssert

def setNode (g : NodeId) (n : Node) : M Unit :=
  modify fun σ => { σ with nodes := σ.nodes.set g n }

def getBK (g : NodeId) : M BookKeeping := do
  pure (← getNode g).book_keeping

def setBK (g : NodeId) (bk : BookKeeping) : M Unit := do
  let n ← getNode g
  setNode g { n with book_keeping := bk }

/-- Allocate a fresh node: object construction `Grammar.__init__`, which
installs a default `BookKeeping()` record. -/
def allocNode (s : Shape) : M NodeId := do
  let σ ← get
  set { σ with nodes := σ.nodes ++ [({ shape := s, book_keeping := {} } : Node)] }
  pure σ.nodes.length

/-- Sorted duplicate-free insertion (our model of adding to a byte set). -/
def bsInsert (c : Nat) : List Nat → List Nat
  | [] => [c]
  | x :: xs =>
    if c < x then c :: x :: xs
    else if c = x then x :: xs
    else x :: bsInsert c xs

/-- Linear merge of two sorted duplicate-free lists, with enough fuel to
consume both (the fallback is unreachable). -/
def bsUnionGo : Nat → List Nat → List Nat → List Nat
  | 0, a, b => a ++ b
  | _ + 1, [], b => b
  | _ + 1, a, [] => a
  | fuel + 1, x :: xs, y :: ys =>
    if x < y then x :: bsUnionGo fuel xs (y :: ys)
    else if x = y then x :: bsUnionGo fuel xs ys
    else y :: bsUnionGo fuel (x :: xs) ys

/-- Set union for byte sets (linear merge of the sorted representations). -/
def bsUnion (a b : List Nat) : List Nat := bsUnionGo (a.length + b.length) a b

/-- Normalization of an arbitrary list into a set (`frozenset(...)`). -/
def toSet (l : List Nat) : List Nat := l.foldr bsInsert []

/-- Insertion-ordered duplicate-free append (Python `set.add` where the
interpreter later iterates over the set). -/
def addNew (x : Nat) (l : List Nat) : List Nat :=
  if l.contains x then l else l ++ [x]

def addNewT (x : Target) (l : List Target) : List Target :=
  if l.contains x then l else l ++ [x]

def addAllT (xs : List Target) (l : List Target) : List Target :=
  xs.foldl (fun acc x => addNewT x acc) l

/-- Association-list read of a `derivatives` dict (`d.get(c, default)`). -/
def dget (c : Nat) : List (Nat × NodeId) → Option NodeId
  | [] => none
  | (k, v) :: rest => if k = c then some v else dget c rest

/-- Association-list write of a `derivatives` dict (`d[c] = v`): update in
place if present, else append (Python dicts preserve insertion order). -/
def dset (c : Nat) (v : NodeId) : List (Nat × NodeId) → List (Nat × NodeId)
  | [] => [(c, v)]
  | (k, w) :: rest => if k = c then (k, v) :: rest else (k, w) :: dset c v rest

/-- Python `dict.__eq__`: same key set, equal values (values are grammars,
compared by identity). -/
def dictBeq (d1 d2 : List (Nat × NodeId)) : Bool :=
  d1.all (fun kv => dget kv.1 d2 = some kv.2) &&
  d2.all (fun kv => dget kv.1 d1 = some kv.2)

/-- `prev != value` on stored values: structural for booleans and
frozensets, key/value comparison for dicts. -/
def pvEq (a b : PropValue) : Bool :=
  match a, b with
  | .b x, .b y => x = y
  | .s x, .s y => x = y
  | .d x, .d y => dictBeq x y
  | _, _ => false

/-- `getattr(grammar.book_keeping, name)`. -/
def readProp (p : PropName) (bk : BookKeeping) : PropValue :=
  match p with
  | .matches_empty => .b bk.matches_empty
  | .possible_starts => .s bk.possible_starts
  | .could_have_matches => .b bk.could_have_matches
  | .derivatives => .d bk.derivatives

/-- `setattr(grammar.book_keeping, name, value)`.  A tag mismatch cannot
occur; it is modelled as a fatal error. -/
def writeProp (p : PropName) (v : PropValue) (bk : BookKeeping) : Option BookKeeping :=
  match p, v with
  | .matches_empty, .b x => some { bk with matches_empty := x }
  | .possible_starts, .s x => some { bk with possible_starts := x }
  | .could_have_matches, .b x => some { bk with could_have_matches := x }
  | .derivatives, .d x => some { bk with derivatives := x }
  | _, _ => none

def asB : PropValue → M Bool
  | .b v => pure v
  | _ => throwAssert

def asS : PropValue → M (List Nat)
  | .s v => pure v
  | _ => throwAssert

def asD : PropValue → M (List (Nat × NodeId))
  | .d v => pure v
  | _ => throwAssert

/-- The global singletons: `null` and `epsilon` are created at module load
before anything else, `dot = any(1)` right after; their ids are fixed. -/
def nullId : NodeId := 0
def epsilonId : NodeId := 1
def dotId : NodeId := 2

/-- `Lazy.has_been_forced`: the slot holds a grammar. -/
def slotForced : LazySlot → Bool
  | .valueOf _ => true
  | _ => false

/-- A Python value flowing through the dynamically typed parts: a grammar
node or some non-grammar object (an int, say). -/
inductive PyVal
  | g (id : NodeId)
  | other (n : Int)
deriving DecidableEq, Repr

deriving instance DecidableEq for Except

/-! ## BookKeeper primitive operations

These are the methods of `BookKeeper` that do not recurse: they read and
write the solver scratch state living in `St.current` and the per-node
records.  `is_complete`, `mark_complete`, `get_value` and `set_value`
mirror the methods of the same names; `request` and `dependency` likewise.
-/

def getKeeper : M BookKeeper := do
  match (← get).current with
  | some k => pure k
  | none => throwAssert

def setKeeper (k : BookKeeper) : M Unit :=
  modify fun σ => { σ with current := some k }

def is_complete (t : Target) : M Bool := do
  pure ((← getBK t.2).complete.has t.1)

def mark_complete (t : Target) : M Unit := do
  let bk ← getBK t.2
  setBK t.2 { bk with complete := bk.complete.add t.1 }

/-- `get_value`: record the read in `values_requested`, then return the
stored attribute. -/
def get_value (t : Target) : M PropValue := do
  let k ← getKeeper
  setKeeper { k with values_requested := addNewT t k.values_requested }
  pure (readProp t.1 (← getBK t.2))

def watchesGet (t : Target) : List (Target × List Target) → List Target
  | [] => []
  | (k, v) :: rest => if k = t then v else watchesGet t rest

def watchesAdd (toT frT : Target) : List (Target × List Target) → List (Target × List Target)
  | [] => [(toT, [frT])]
  | (k, v) :: rest =>
    if k = toT then (k, addNewT frT v) :: rest else (k, v) :: watchesAdd toT frT rest

def request (t : Target) : M Unit := do
  if (← is_complete t) then pure ()
  else do
    let k ← getKeeper
    if k.targets.contains t then pure ()
    else setKeeper { k with targets := k.targets ++ [t], dirty := k.dirty ++ [t] }

def dependency (_from toT : Target) : M Unit := do
  if (← is_complete _from) then throwAssert
  else if (← is_complete toT) then pure ()
  else do
    request toT
    let k ← getKeeper
    setKeeper { k with watches := watchesAdd toT _from k.watches }

/-- `set_value`: write the attribute if it changed and dirty the watchers. -/
def set_value (t : Target) (v : PropValue) : M Unit := do
  let bk ← getBK t.2
  if pvEq (readProp t.1 bk) v then pure ()
  else
    match writeProp t.1 v bk with
    | none => throwAssert
    | some bk2 => do
        setBK t.2 bk2
        let k ← getKeeper
        setKeeper { k with dirty := addAllT (watchesGet t k.watches) k.dirty }

/-- `self.matches_empty(grammar)` inside the solver. -/
def kMe (g : NodeId) : M Bool := do asB (← get_value (.matches_empty, g))

/-- `self.possible_starts(grammar)` inside the solver. -/
def kPs (g : NodeId) : M (List Nat) := do asS (← get_value (.possible_starts, g))

/-- `self.could_have_matches(grammar)` inside the solver. -/
def kChm (g : NodeId) : M Bool := do asB (← get_value (.could_have_matches, g))

/-- The loop `for v in self.values_requested: self.dependency(target, v)`. -/
def depsRegister (t : Target) : List Target → M Unit
  | [] => pure ()
  | d :: ds => do
      dependency t d
      depsRegister t ds

/-- The loop `for target in self.targets: self.mark_complete(target)`. -/
def markAll : List Target → M Unit
  | [] => pure ()
  | t :: ts => do
      mark_complete t
      markAll ts

/-- The wrapper's replacement of a forced `Lazy` argument by its value. -/
def derefNode (g : NodeId) : M NodeId := do
  let n ← getNode g
  match n.shape with
  | .Lazy (.valueOf v) => pure v
  | _ => pure g

/-- The `INPUT_CACHE[key]` lookup of `cached`.  The source never assigns
into `INPUT_CACHE` (the write is missing from `inner`), so this lookup
can only ever miss; we model the cache faithfully as state that starts
empty and is never written. -/
def lookupInput (k : CacheKey) : M (Option NodeId) := do
  pure ((((← get).input_cache.find? (fun e => e.1 = k))).map (fun e => e.2))

/-- Back-patch one pending lazy: `t.__thunk = thunked`. -/
def patchOne (v : PyVal) (id : NodeId) : M Unit := do
  let n ← getNode id
  match n.shape with
  | .Lazy _ =>
      match v with
      | .g f => setNode id { n with shape := .Lazy (.valueOf f) }
      | .other m => setNode id { n with shape := .Lazy (.badValue m) }
  | _ => throwAssert

/-- `for t in to_assign: t.__thunk = thunked`. -/
def patchAll (ids : List NodeId) (v : PyVal) : M Unit := ids.forM (patchOne v)

/-! ## The interpreter

One mutual block of fueled functions covering the constructors (with the
`cached` wrapper inlined at each), `Lazy` resolution, the `BookKeeper`
solver, `derivative` and `compact`.  Every recursive call decreases the
fuel; `Err.outOfFuel` signals exhaustion.
-/

mutual

/-- `do_initial_book_keeping(grammar)`. -/
def do_initial_book_keeping : Nat → NodeId → M Unit
  | 0, _ => throw Err.outOfFuel
  | fuel + 1, g => do
    let n ← getNode g
    match n.shape with
    | .Any k =>
        if k ≤ 0 then throwAssert
        else do
          let ds ← anyDerivs fuel (k - 1) ANY_BYTE
          setBK g { matches_empty := false, possible_starts := ANY_BYTE,
                    could_have_matches := true, derivatives := ds,
                    complete := all_complete }
    | .Chars cs =>
        if cs = [] then throwAssert
        else
          setBK g { matches_empty := false, possible_starts := cs,
                    could_have_matches := true,
                    derivatives := cs.map (fun c => (c, epsilonId)),
                    complete := all_complete }
    | _ => pure ()
termination_by structural fuel _ => fuel

/-- The dict comprehension `{c: any(k) for c in cs}` (with `k` already
decremented by the caller). -/
def anyDerivs : Nat → Int → List Nat → M (List (Nat × NodeId))
  | 0, _, _ => throw Err.outOfFuel
  | _ + 1, _, [] => pure []
  | fuel + 1, k, c :: cs => do
      let v ← any fuel k
      let rest ← anyDerivs fuel k cs
      pure ((c, v) :: rest)
termination_by structural fuel _ _ => fuel

/-- The tail of the `cached` wrapper: unwrap a forced-lazy result, then
`if result not in OUTPUT_CACHE: do_initial_book_keeping(result);
OUTPUT_CACHE[result] = result`. -/
def finishCached : Nat → NodeId → M NodeId
  | 0, _ => throw Err.outOfFuel
  | fuel + 1, r => do
    let n ← getNode r
    let r2 ← match n.shape with
      | .Lazy (.valueOf v) => pure v
      | _ => pure r
    let σ ← get
    if σ.output_cache.contains r2 then pure r2
    else do
      do_initial_book_keeping fuel r2
      modify fun σ2 => { σ2 with output_cache := σ2.output_cache ++ [r2] }
      pure r2
termination_by structural fuel _ => fuel

/-- `any(n)` (cached). -/
def any : Nat → Int → M NodeId
  | 0, _ => throw Err.outOfFuel
  | fuel + 1, n => do
    match (← lookupInput ("any", [.int n])) with
    | some v => pure v
    | none => do
        let r ← if n = 0 then pure epsilonId else allocNode (.Any n)
        finishCached fuel r
termination_by structural fuel _ => fuel

/-- `chars(cs)` (cached).  The wrapper turns the argument into a
frozenset; the body matches on its size. -/
def chars : Nat → List Nat → M NodeId
  | 0, _ => throw Err.outOfFuel
  | fuel + 1, cs0 => do
    let cs := toSet cs0
    match (← lookupInput ("chars", [.byteset cs])) with
    | some v => pure v
    | none => do
        let r ← if cs.length = 0 then pure nullId
          else if cs.length = 256 then pure dotId
          else allocNode (.Chars cs)
        finishCached fuel r

/-- `_cat(left, right)` (cached): the binary smart constructor. -/
def _cat : Nat → NodeId → NodeId → M NodeId
  | 0, _, _ => throw Err.outOfFuel
  | fuel + 1, l0, r0 => do
    match (← lookupInput ("_cat", [.node l0, .node r0])) with
    | some v => pure v
    | none => do
      let l ← derefNode l0
      let r ← derefNode r0
      let nl ← getNode l
      let nr ← getNode r
      let r3 ← match nl.shape, nr.shape with
        | .Epsilon, _ => pure r
        | _, .Epsilon => pure l
        | .Null, _ => pure nullId
        | _, .Null => pure nullId
        | .Cat u v, _ => do
            let inner ← _cat fuel v r
            _cat fuel u inner
        | .Any m, .Any n => allocNode (.Any (m + n))
        | _, _ => allocNode (.Cat l r)
      finishCached fuel r3
termination_by structural fuel _ _ => fuel

/-- The loop of `cat`: `result = args[-1]; for v in reversed(args[:-1]):
result = _cat(v, result)`. -/
def catFold : Nat → List NodeId → M NodeId
  | 0, _ => throw Err.outOfFuel
  | _ + 1, [] => throwAssert
  | _ + 1, [x] => pure x
  | fuel + 1, x :: y :: rest => do
      let r ← catFold fuel (y :: rest)
      _cat fuel x r
termination_by structural fuel _ => fuel

/-- `cat(*args)` (cached). -/
def cat : Nat → List NodeId → M NodeId
  | 0, _ => throw Err.outOfFuel
  | fuel + 1, args0 => do
    match (← lookupInput ("cat", args0.map CacheArg.node)) with
    | some v => pure v
    | none => do
      let args ← args0.mapM derefNode
      let r ← match args with
        | [] => pure epsilonId
        | [x] => pure x
        | xs => catFold fuel xs
      finishCached fuel r

/-- The scan loop of `union`: `while stack: for child in stack.pop(): ...`
collecting single characters, flattened children and the epsilon flag. -/
def unionScan : Nat → List NodeId → List (List NodeId) → List Nat → List NodeId → Bool →
    M (List Nat × List NodeId × Bool)
  | 0, _, _, _, _, _ => throw Err.outOfFuel
  | _ + 1, [], [], s, f, e => pure (s, f, e)
  | fuel + 1, [], nxt :: st, s, f, e => unionScan fuel nxt st s f e
  | fuel + 1, c :: rest, st, s, f, e => do
      let n ← getNode c
      match n.shape with
      | .Chars cs => unionScan fuel rest st (bsUnion cs s) f e
      | .Union ch => unionScan fuel rest (ch :: st) s f e
      | .Null => unionScan fuel rest st s f e
      | .Epsilon => unionScan fuel rest st s f true
      | .Any k =>
          if k = 1 then unionScan fuel rest st (bsUnion ANY_BYTE s) f e
          else unionScan fuel rest st s (addNew c f) e
      | _ => unionScan fuel rest st s (addNew c f) e
termination_by structural fuel _ _ _ _ _ => fuel

/-- `union(*args)` (cached).  `deltas` is always empty in this revision,
so the `flattened.update(deltas)` branch is a no-op. -/
def union : Nat → List NodeId → M NodeId
  | 0, _ => throw Err.outOfFuel
  | fuel + 1, args0 => do
    match (← lookupInput ("union", args0.map CacheArg.node)) with
    | some v => pure v
    | none => do
      let args ← args0.mapM derefNode
      let (singles, flat0, hasEps) ← unionScan fuel args [] [] [] false
      let flat1 := if hasEps then addNew epsilonId flat0 else flat0
      let r ← if singles.isEmpty && flat1.isEmpty then pure nullId
        else do
          let flat2 ← if singles.isEmpty then pure flat1
            else do
              let cnode ← chars fuel singles
              pure (addNew cnode flat1)
          match flat2 with
          | [] => pure nullId
          | [x] => pure x
          | xs => allocNode (.Union (toSet xs))
      finishCached fuel r

/-- Run a defunctionalized thunk. -/
def runThunk : Nat → ThunkCode → M PyVal
  | 0, _ => throw Err.outOfFuel
  | fuel + 1, t =>
    match t with
    | .ref g => pure (.g g)
    | .unionEpsCat child selfId => do
        let c ← cat fuel [child, selfId]
        let u ← union fuel [epsilonId, c]
        pure (.g u)
    | .bad n => pure (.other n)

/-- The resolution walk of `Lazy.value` (the `while True` loop), including
the final back-patching of every lazy in `to_assign`. -/
def lazyWalk : Nat → NodeId → PyVal → List NodeId → List NodeId → M PyVal
  | 0, _, _, _, _ => throw Err.outOfFuel
  | fuel + 1, selfId, thunked, seen, toAssign =>
    match thunked with
    | .other n => do
        patchAll toAssign (.other n)
        pure (.other n)
    | .g t => do
        if seen.contains t then do
          patchAll toAssign (.g nullId)
          pure (.g nullId)
        else do
          let seen2 := seen ++ [t]
          let node ← getNode t
          match node.shape with
          | .Union ch =>
              if ch.contains selfId then do
                let u ← union fuel (ch.filter (fun c => !(seen2.contains c)))
                lazyWalk fuel selfId (.g u) seen2 toAssign
              else do
                patchAll toAssign (.g t)
                pure (.g t)
          | .Cat l r =>
              if l = selfId || r = selfId then
                lazyWalk fuel selfId (.g nullId) seen2 toAssign
              else do
                patchAll toAssign (.g t)
                pure (.g t)
          | .Lazy slot2 =>
              if t = selfId then throwAssert
              else
                match slot2 with
                | .valueOf w => lazyWalk fuel selfId (.g w) seen2 toAssign
                | .badValue _ => throwAssert
                | .thunk code => do
                    let pv ← runThunk fuel code
                    lazyWalk fuel selfId pv seen2 (toAssign ++ [t])
          | _ => do
              patchAll toAssign (.g t)
              pure (.g t)
termination_by structural fuel _ _ _ _ => fuel

/-- The `Lazy.value` property: resolve on first access, then return the
stored grammar (with the trailing asserts). -/
def Lazy.value : Nat → NodeId → M NodeId
  | 0, _ => throw Err.outOfFuel
  | fuel + 1, selfId => do
    let node ← getNode selfId
    match node.shape with
    | .Lazy slot =>
      match slot with
      | .valueOf v => do
          let vn ← getNode v
          match vn.shape with
          | .Lazy _ => throwAssert
          | _ => pure v
      | .badValue _ => throwAssert
      | .thunk t => do
          let pv ← runThunk fuel t
          match pv with
          | .other _ => throwAssert
          | .g t0 => do
              let final ← lazyWalk fuel selfId (.g t0) [selfId] [selfId]
              match final with
              | .other _ => throwAssert
              | .g f => do
                  let fn ← getNode f
                  match fn.shape with
                  | .Lazy _ => throwAssert
                  | _ => pure f
    | _ => throwAssert

/-- `Grammar.force` / `Lazy.force`. -/
def force : Nat → NodeId → M NodeId
  | 0, _ => throw Err.outOfFuel
  | fuel + 1, g => do
    let node ← getNode g
    match node.shape with
    | .Lazy _ => Lazy.value fuel g
    | _ => pure g

/-- The property getter made by `book_keeping_property(name)`: read a
completed attribute directly; otherwise join the running solver if there
is one, else spin up a fresh `BookKeeper`, request the target, run it to
saturation and read the now-complete attribute. -/
def book_keeping_property : Nat → PropName → NodeId → M PropValue
  | 0, _, _ => throw Err.outOfFuel
  | fuel + 1, p, g => do
    let bk ← getBK g
    if bk.complete.has p then pure (readProp p bk)
    else do
      let σ ← get
      match σ.current with
      | some _ => get_value (p, g)
      | none => do
          modify fun σ2 => { σ2 with current := some {} }
          request (p, g)
          BookKeeper.run fuel
          modify fun σ2 => { σ2 with current := none }
          let bk2 ← getBK g
          if bk2.complete.has p then pure (readProp p bk2) else throwAssert
termination_by structural fuel _ _ => fuel

/-- `BookKeeper.run`: the work-list loop, then mark every target
complete. -/
def BookKeeper.run : Nat → M Unit
  | 0 => throw Err.outOfFuel
  | fuel + 1 => do
    let k ← getKeeper
    match k.dirty with
    | [] => markAll k.targets
    | _ => do
        setKeeper { k with dirty := [] }
        runProcess fuel k.dirty
        BookKeeper.run fuel
termination_by structural fuel => fuel

/-- `for target in needs_recalculation: ...` -/
def runProcess : Nat → List Target → M Unit
  | 0, _ => throw Err.outOfFuel
  | _ + 1, [] => pure ()
  | fuel + 1, t :: ts => do
      process_target fuel t
      runProcess fuel ts
termination_by structural fuel _ => fuel

/-- One iteration of the solver body: skip if complete, clear
`values_requested`, compute the value (through `Lazy.value` for lazy
targets, else the matching `calc_*`), store it, then register the
dependencies discovered during the computation. -/
def process_target : Nat → Target → M Unit
  | 0, _ => throw Err.outOfFuel
  | fuel + 1, t => do
    if (← is_complete t) then pure ()
    else do
      let k ← getKeeper
      setKeeper { k with values_requested := [] }
      let node ← getNode t.2
      let v ← match node.shape with
        | .Lazy _ => do
            let val ← Lazy.value fuel t.2
            get_value (t.1, val)
        | _ => calcProp fuel t.1 t.2
      set_value t v
      let k2 ← getKeeper
      depsRegister t k2.values_requested
termination_by structural fuel _ => fuel

/-- `getattr(self, "calc_" + property_name)(grammar)`. -/
def calcProp : Nat → PropName → NodeId → M PropValue
  | 0, _, _ => throw Err.outOfFuel
  | fuel + 1, p, g =>
    match p with
    | .matches_empty => do pure (PropValue.b (← calc_matches_empty fuel g))
    | .possible_starts => do pure (PropValue.s (← calc_possible_starts fuel g))
    | .could_have_matches => do pure (PropValue.b (← calc_could_have_matches fuel g))
    | .derivatives => do pure (PropValue.d (← calc_derivatives fuel g))
termination_by structural fuel _ _ => fuel

def calc_matches_empty : Nat → NodeId → M Bool
  | 0, _ => throw Err.outOfFuel
  | fuel + 1, g => do
    let node ← getNode g
    match node.shape with
    | .Cat l r => do
        let a ← kMe l
        if a then kMe r else pure false
    | .Union ch => do
        match (← meScan fuel ch [] []) with
        | none => pure true
        | some (resolved, unresolved) => do
            let a ← meLoop fuel resolved
            if a then pure true else meLoop fuel unresolved
    | _ => throwAssert

/-- The single pass of `calc_matches_empty` over a union's children:
short-circuit on an already-true record, else partition into resolved
and unresolved (unforced lazy) children.  `none` means the short-circuit
fired. -/
def meScan : Nat → List NodeId → List NodeId → List NodeId →
    M (Option (List NodeId × List NodeId))
  | 0, _, _, _ => throw Err.outOfFuel
  | _ + 1, [], res, unres => pure (some (res, unres))
  | fuel + 1, c :: rest, res, unres => do
      let node ← getNode c
      if node.book_keeping.matches_empty then pure none
      else
        match node.shape with
        | .Lazy slot =>
            if slotForced slot then meScan fuel rest (res ++ [c]) unres
            else meScan fuel rest res (unres ++ [c])
        | _ => meScan fuel rest (res ++ [c]) unres
termination_by structural fuel _ _ _ => fuel

/-- `for c in cs: if self.matches_empty(c): return True` -/
def meLoop : Nat → List NodeId → M Bool
  | 0, _ => throw Err.outOfFuel
  | _ + 1, [] => pure false
  | fuel + 1, c :: rest => do
      if (← kMe c) then pure true else meLoop fuel rest
termination_by structural fuel _ => fuel

def calc_possible_starts : Nat → NodeId → M (List Nat)
  | 0, _ => throw Err.outOfFuel
  | fuel + 1, g => do
    let node ← getNode g
    match node.shape with
    | .Cat l r => do
        if (← kMe l) then do
          let a ← kPs l
          let b ← kPs r
          pure (bsUnion a b)
        else kPs l
    | .Union ch => psLoop fuel ch []
    | _ => throwAssert

/-- `for c in children: result |= ps(c); if len(result) == 256: break` -/
def psLoop : Nat → List NodeId → List Nat → M (List Nat)
  | 0, _, _ => throw Err.outOfFuel
  | _ + 1, [], acc => pure acc
  | fuel + 1, c :: rest, acc => do
      let a ← kPs c
      let acc2 := bsUnion a acc
      if acc2.length = 256 then pure acc2 else psLoop fuel rest acc2
termination_by structural fuel _ _ => fuel

def calc_could_have_matches : Nat → NodeId → M Bool
  | 0, _ => throw Err.outOfFuel
  | fuel + 1, g => do
    if (← kMe g) then pure true
    else do
      let ps ← kPs g
      if ps = [] then pure false
      else do
        let node ← getNode g
        match node.shape with
        | .Cat l r => do
            let a ← kChm l
            if a then kChm r else pure false
        | .Union ch => chmLoop fuel ch
        | _ => throwAssert

/-- `for c in children: if self.could_have_matches(c): return True` -/
def chmLoop : Nat → List NodeId → M Bool
  | 0, _ => throw Err.outOfFuel
  | _ + 1, [] => pure false
  | fuel + 1, c :: rest => do
      if (← kChm c) then pure true else chmLoop fuel rest
termination_by structural fuel _ => fuel

def calc_derivatives : Nat → NodeId → M (List (Nat × NodeId))
  | 0, _ => throw Err.outOfFuel
  | fuel + 1, g => do
    let node ← getNode g
    match node.shape with
    | .Union ch => do
        let ps ← kPs g
        derUnionLoop fuel ch ps []
    | .Cat l r => do
        let psl ← kPs l
        let acc ← derCatLoop1 fuel psl l r []
        if (← kMe l) then do
          let psr ← kPs r
          derCatLoop2 fuel psr r acc
        else pure acc
    | .Lazy _ => do
        let v ← Lazy.value fuel g
        asD (← book_keeping_property fuel .derivatives v)
    | _ => throwAssert
termination_by structural fuel _ => fuel

/-- `[derivative(child, c).force() for child in children]` -/
def derivChildren : Nat → List NodeId → Nat → M (List NodeId)
  | 0, _, _ => throw Err.outOfFuel
  | _ + 1, [], _ => pure []
  | fuel + 1, child :: rest, c => do
      let d ← derivative fuel child c
      let f ← force fuel d
      let others ← derivChildren fuel rest c
      pure (f :: others)
termination_by structural fuel _ _ => fuel

/-- The union case of `calc_derivatives`. -/
def derUnionLoop : Nat → List NodeId → List Nat → List (Nat × NodeId) →
    M (List (Nat × NodeId))
  | 0, _, _, _ => throw Err.outOfFuel
  | _ + 1, _, [], acc => pure acc
  | fuel + 1, ch, c :: cs, acc => do
      let ds ← derivChildren fuel ch c
      let u ← union fuel ds
      let acc2 := if u ≠ nullId then dset c u acc else acc
      derUnionLoop fuel ch cs acc2
termination_by structural fuel _ _ _ => fuel

/-- First loop of the `Cat` case of `calc_derivatives`:
`result[c] = cat(derivative(left, c).force(), right)`. -/
def derCatLoop1 : Nat → List Nat → NodeId → NodeId → List (Nat × NodeId) →
    M (List (Nat × NodeId))
  | 0, _, _, _, _ => throw Err.outOfFuel
  | _ + 1, [], _, _, acc => pure acc
  | fuel + 1, c :: cs, l, r, acc => do
      let d ← derivative fuel l c
      let f ← force fuel d
      let v ← cat fuel [f, r]
      derCatLoop1 fuel cs l r (dset c v acc)
termination_by structural fuel _ _ _ _ => fuel

/-- Second loop of the `Cat` case (when the left child is nullable):
merge in the derivatives of the right child. -/
def derCatLoop2 : Nat → List Nat → NodeId → List (Nat × NodeId) →
    M (List (Nat × NodeId))
  | 0, _, _, _ => throw Err.outOfFuel
  | _ + 1, [], _, acc => pure acc
  | fuel + 1, c :: cs, r, acc => do
      match dget c acc with
      | some ex => do
          let d ← derivative fuel r c
          let f ← force fuel d
          let u ← union fuel [ex, f]
          derCatLoop2 fuel cs r (dset c u acc)
      | none => do
          let d ← derivative fuel r c
          derCatLoop2 fuel cs r (dset c d acc)
termination_by structural fuel _ _ _ => fuel

/-- `derivative(grammar, c)`. -/
def derivative : Nat → NodeId → Nat → M NodeId
  | 0, _, _ => throw Err.outOfFuel
  | fuel + 1, g, c => do
    let ps ← asS (← book_keeping_property fuel .possible_starts g)
    if ps.contains c then do
      let d ← asD (← book_keeping_property fuel .derivatives g)
      compact fuel ((dget c d).getD nullId)
    else pure nullId
termination_by structural fuel _ _ => fuel

/-- `compact(grammar)`. -/
def compact : Nat → NodeId → M NodeId
  | 0, _ => throw Err.outOfFuel
  | fuel + 1, g => do
    let chm ← asB (← book_keeping_property fuel .could_have_matches g)
    if chm then do
      let ps ← asS (← book_keeping_property fuel .possible_starts g)
      if ps = [] then do
        let me ← asB (← book_keeping_property fuel .matches_empty g)
        if me then pure epsilonId else throwAssert
      else pure g
    else pure nullId
termination_by structural fuel _ => fuel

end

/-- `lazy(fn)`: plain construction of a `Lazy` node (not `cached`). -/
def lazy (t : ThunkCode) : M NodeId := allocNode (.Lazy (.thunk t))

/-- `matches(grammar, string)`: fold `derivative` over the bytes, then
read `matches_empty` of the residue. -/
def «matches» (fuel : Nat) : NodeId → List Nat → M Bool
  | g, [] => do asB (← book_keeping_property fuel .matches_empty g)
  | g, c :: rest => do
      let g2 ← derivative fuel g c
      «matches» fuel g2 rest

/-- `char(c)` (cached): `chars(frozenset((c,)))`. -/
def char (fuel : Nat) (c : Nat) : M NodeId := do
  match (← lookupInput ("char", [.int (c : Int)])) with
  | some v => pure v
  | none => do
      let r ← chars fuel [c]
      finishCached fuel r

/-- `literal(s)` (cached): `cat(*[char(c) for c in s])`. -/
def literal (fuel : Nat) (s : List Nat) : M NodeId := do
  match (← lookupInput ("literal", [.bytes s])) with
  | some v => pure v
  | none => do
      let cs ← s.mapM (char fuel)
      let r ← cat fuel cs
      finishCached fuel r

/-- `optional(child)` (cached): `union(child, epsilon)`.  (Named
`optionalG` because `optional` is taken by the Lean prelude.) -/
def optionalG (fuel : Nat) (g0 : NodeId) : M NodeId := do
  match (← lookupInput ("optional", [.node g0])) with
  | some v => pure v
  | none => do
      let g ← derefNode g0
      let r ← union fuel [g, epsilonId]
      finishCached fuel r

/-- `seq(child)` (cached): a `Lazy` whose thunk is
`union(epsilon, cat(child, result))`, `result` being the lazy itself. -/
def seq (fuel : Nat) (child0 : NodeId) : M NodeId := do
  match (← lookupInput ("seq", [.node child0])) with
  | some v => pure v
  | none => do
      let child ← derefNode child0
      let selfId := (← get).nodes.length
      let r ← allocNode (.Lazy (.thunk (.unionEpsCat child selfId)))
      finishCached fuel r

/-- Module-load initialization: create the `null` and `epsilon`
singletons with their pre-completed records, then `dot = any(1)`. -/
def moduleInit (fuel : Nat) : M Unit := do
  let n ← allocNode .Null
  setBK n { matches_empty := false, possible_starts := [],
            could_have_matches := false, derivatives := [],
            complete := all_complete }
  let e ← allocNode .Epsilon
  setBK e { matches_empty := true, possible_starts := [],
            could_have_matches := true, derivatives := [],
            complete := all_complete }
  let _ ← any fuel 1
  pure ()

/-- The module state right after import: `null` at id 0, `epsilon` at
id 1, `dot` at id 2. -/
def sigma0 : St :=
  match (moduleInit 600).run {} with
  | .ok (_, σ) => σ
  | .error _ => {}

/-! ## Dynamically typed constructor entry points

Python is untyped: `cat` and `union` accept arbitrary objects, and a
non-grammar argument is only detected where `Cat.__init__` /
`Union.__init__` run their `isinstance` asserts.  Some normalization
branches return an argument unchanged without ever running those asserts.
To settle the error-handling claim we replay `cat`, `_cat` and `union`
over `PyVal` (grammar id or non-grammar), mirroring the same code paths.
-/

def derefPy : PyVal → M PyVal
  | .g id => do pure (.g (← derefNode id))
  | .other n => pure (.other n)

def shapeOfPy : PyVal → M (Option Shape)
  | .g id => do pure (some (← getNode id).shape)
  | .other _ => pure none

/-- Wrapper tail over `PyVal`: for a non-grammar result,
`do_initial_book_keeping` matches nothing and caching the value has no
observable effect, so only grammar results touch the state. -/
def finishPy (fuel : Nat) : PyVal → M PyVal
  | .g r => do pure (.g (← finishCached fuel r))
  | .other n => pure (.other n)

/-- `_cat` on dynamically typed arguments. -/
def _catPy : Nat → PyVal → PyVal → M PyVal
  | 0, _, _ => throw Err.outOfFuel
  | fuel + 1, l0, r0 => do
    let l ← derefPy l0
    let r ← derefPy r0
    let ls ← shapeOfPy l
    let rs ← shapeOfPy r
    let r3 ← match ls, rs with
      | some .Epsilon, _ => pure r
      | _, some .Epsilon => pure l
      | some .Null, _ => pure (PyVal.g nullId)
      | _, some .Null => pure (PyVal.g nullId)
      | some (.Cat u v), _ => do
          let inner ← _catPy fuel (.g v) r
          _catPy fuel (.g u) inner
      | some (.Any m), some (.Any n) => do pure (PyVal.g (← allocNode (.Any (m + n))))
      | _, _ =>
          match l, r with
          | .g li, .g ri => do pure (PyVal.g (← allocNode (.Cat li ri)))
          | _, _ => throwAssert
    finishPy fuel r3
termination_by structural fuel _ _ => fuel

def catFoldPy : Nat → List PyVal → M PyVal
  | 0, _ => throw Err.outOfFuel
  | _ + 1, [] => throwAssert
  | _ + 1, [x] => pure x
  | fuel + 1, x :: y :: rest => do
      let r ← catFoldPy fuel (y :: rest)
      _catPy fuel x r
termination_by structural fuel _ => fuel

/-- `cat(*args)` on dynamically typed arguments. -/
def catPy (fuel : Nat) (args0 : List PyVal) : M PyVal := do
  let args ← args0.mapM derefPy
  let r ← match args with
    | [] => pure (PyVal.g epsilonId)
    | [x] => pure x
    | xs => catFoldPy fuel xs
  finishPy fuel r

def addNewPy (x : PyVal) (l : List PyVal) : List PyVal :=
  if l.contains x then l else l ++ [x]

def unionScanPy : Nat → List PyVal → List (List PyVal) → List Nat → List PyVal → Bool →
    M (List Nat × List PyVal × Bool)
  | 0, _, _, _, _, _ => throw Err.outOfFuel
  | _ + 1, [], [], s, f, e => pure (s, f, e)
  | fuel + 1, [], nxt :: st, s, f, e => unionScanPy fuel nxt st s f e
  | fuel + 1, c :: rest, st, s, f, e => do
      match (← shapeOfPy c) with
      | some (.Chars cs) => unionScanPy fuel rest st (bsUnion cs s) f e
      | some (.Union ch) => unionScanPy fuel rest ((ch.map PyVal.g) :: st) s f e
      | some .Null => unionScanPy fuel rest st s f e
      | some .Epsilon => unionScanPy fuel rest st s f true
      | some (.Any k) =>
          if k = 1 then unionScanPy fuel rest st (bsUnion ANY_BYTE s) f e
          else unionScanPy fuel rest st s (addNewPy c f) e
      | _ => unionScanPy fuel rest st s (addNewPy c f) e
termination_by structural fuel _ _ _ _ _ => fuel

/-- `union(*args)` on dynamically typed arguments: a non-grammar child
lands in `flattened`; the `isinstance` assert of `Union.__init__` only
runs when at least two flattened children remain. -/
def unionPy (fuel : Nat) (args0 : List PyVal) : M PyVal := do
  let args ← args0.mapM derefPy
  let (singles, flat0, hasEps) ← unionScanPy fuel args [] [] [] false
  let flat1 := if hasEps then addNewPy (.g epsilonId) flat0 else flat0
  let r ← if singles.isEmpty && flat1.isEmpty then pure (PyVal.g nullId)
    else do
      let flat2 ← if singles.isEmpty then pure flat1
        else do
          let cnode ← chars fuel singles
          pure (addNewPy (.g cnode) flat1)
      match flat2 with
      | [] => pure (PyVal.g nullId)
      | [x] => pure x
      | xs => do
          let ids ← xs.mapM (fun v => match v with
            | PyVal.g id => pure id
            | PyVal.other _ => throwAssert)
          pure (PyVal.g (← allocNode (.Union (toSet ids))))
  finishPy fuel r


/-! ## Basic run lemmas for the monad -/

theorem M_run_bind {α β : Type} (m : M α) (f : α → M β) (σ : St) :
    (m >>= f).run σ = Except.bind (m.run σ) (fun p => (f p.1).run p.2) := rfl

theorem M_run_pure {α : Type} (a : α) (σ : St) :
    (pure a : M α).run σ = Except.ok (a, σ) := rfl

theorem M_run_throw {α : Type} (e : Err) (σ : St) :
    (throw e : M α).run σ = Except.error e := rfl

theorem getNode_run (g : NodeId) (σ : St) :
    (getNode g).run σ =
      match σ.nodes.get? g with
      | some n => Except.ok (n, σ)
      | none => Except.error Err.assertionError := by
  rw [show σ.nodes.get? g = σ.nodes[g]? from List.get?_eq_getElem? ..]
  cases h : σ.nodes[g]? <;>
    simp [getNode, M_run_bind, h, bind, StateT.bind, get, getThe, MonadStateOf.get,
      StateT.get, Except.bind, pure, StateT.pure, Except.pure, throwAssert, throw,
      throwThe, MonadExceptOf.throw, StateT.run, StateT.lift]

/-- Whether a shape is one of the composite constructors whose records the
solver computes. -/
def Shape.isComposite : Shape → Bool
  | .Cat _ _ => true
  | .Union _ => true
  | .Lazy _ => true
  | _ => false

/-! ## Claim programs and theorems -/

set_option maxRecDepth 1000000
set_option maxHeartbeats 4000000

/-- Claim C1's scenario: `chars(frozenset({97}))` twice, then
`union(x, y)` and `union(y, x)` for two (lazy) composite grammars. -/
def c1Program : M (NodeId × NodeId × NodeId × NodeId) := do
  let a ← chars 99 [97]
  let b ← chars 99 [97]
  let x ← lazy (.ref 0)
  let y ← lazy (.ref 0)
  let u1 ← union 99 [x, y]
  let u2 ← union 99 [y, x]
  pure (a, b, u1, u2)

/-- C1: "every pair of constructor calls with equal inputs (after
normalization) returns the identical node" fails on the code.  `cached`
looks `INPUT_CACHE` up but never assigns into it, and `OUTPUT_CACHE`
membership goes through the identity-based `__eq__`, so nothing is ever
interned: two calls of `chars(frozenset({97}))` return two distinct
objects (heap ids 3 and 4), and `union(x, y)` versus `union(y, x)`
return two distinct `Union` objects (ids 7 and 8) with the same children
frozenset. -/
theorem C1_constructors_not_interned :
    Except.map Prod.fst (c1Program.run sigma0) = Except.ok (3, 4, 7, 8) ∧
    (3 : NodeId) ≠ 4 ∧ (7 : NodeId) ≠ 8 := by
  refine ⟨by decide!, by decide, by decide⟩

/-- C2: `matches(g, b·s) == matches(derivative(g, b), s)` — for every
state, fuel, grammar id, byte and byte string, the matcher applied to
`b :: s` is definitionally the program that takes the derivative by `b`
and then matches `s` from the resulting state: the matcher is the fold
of `derivative`. -/
theorem C2_matches_step (fuel : Nat) (g : NodeId) (b : Nat) (s : List Nat) (σ : St) :
    («matches» fuel g (b :: s)).run σ =
      Except.bind ((derivative fuel g b).run σ)
        (fun p => («matches» fuel p.1 s).run p.2) := rfl

/-- Claim C3's scenario: `x = lazy(λ. union(epsilon, cat(chars({'0','1'}), x)))`
(the lazy node gets heap id 4), then both derivatives, and the shapes of
the three nodes involved. -/
def c3Program : M (NodeId × NodeId × NodeId × Shape × Shape × Shape) := do
  let c01 ← chars 300 [48, 49]
  let x ← lazy (.unionEpsCat c01 4)
  let d0 ← derivative 300 x 48
  let d1 ← derivative 300 x 49
  let nd0 ← getNode d0
  let nd1 ← getNode d1
  let nx ← getNode x
  pure (x, d0, d1, nd0.shape, nd1.shape, nx.shape)

/-- C3 counterexample: `derivative(x, '0')` is not `x` by identity (and
`derivative(x, '1')` is yet another object).  `x` is the `Lazy` node
(id 4, forced to the `Union` id 6); the derivatives are two freshly
allocated `Union` nodes (ids 7 and 8) with the same children
`{epsilon, cat(chars({'0','1'}), x)}` — structurally equal to the forced
value of `x` but distinct from `x` and from each other, because `union`
re-builds the node on every call instead of interning it. -/
theorem C3_derivative_not_identical_to_x :
    Except.map Prod.fst (c3Program.run sigma0) =
      Except.ok (4, 7, 8, .Union [1, 5], .Union [1, 5], .Lazy (.valueOf 6)) ∧
    (7 : NodeId) ≠ 4 ∧ (8 : NodeId) ≠ 4 ∧ (7 : NodeId) ≠ 8 := by
  refine ⟨by decide!, by decide, by decide, by decide⟩

/-- Claim C4's scenario: build the composite `cat(chars({97}), chars({98}))`
(heap id 5), read its bookkeeping record right after construction, then
query `possible_starts` (running the solver) and read the record again. -/
def c4Program : M (NodeId × List Nat × CompleteSet × List Nat × Bool) := do
  let a ← chars 99 [97]
  let b ← chars 99 [98]
  let g ← cat 99 [a, b]
  let bk1 ← getBK g
  let _ ← book_keeping_property 200 .possible_starts g
  let bk2 ← getBK g
  pure (g, bk1.possible_starts, bk1.complete, bk2.possible_starts,
        bk2.complete.possible_starts)

/-- C4 counterexample: the bookkeeping record of a fresh composite node
is NOT initialized with `possible_starts = ∅`: the dataclass default is
the full byte set `ANY_BYTE`, and the solver's first update on this node
moves the set DOWN (here from `ANY_BYTE` to `{97}`), not upward. -/
theorem C4_possible_starts_not_bottom :
    Except.map Prod.fst (c4Program.run sigma0) =
      Except.ok (5, ANY_BYTE, {}, [97], true) ∧
    ANY_BYTE ≠ ([] : List Nat) ∧ [97] ≠ ANY_BYTE ∧ 97 ∈ ANY_BYTE := by
  refine ⟨by decide!, by decide, by decide, by decide⟩

/-- C4 amended: every node allocation installs the dataclass defaults
`matches_empty = false`, `could_have_matches = false` and
`possible_starts = ANY_BYTE` (the full byte set — the TOP of the subset
lattice, not `∅`); `do_initial_book_keeping` leaves `Cat`, `Union` and
`Lazy` records at those defaults; and during a solver run
`possible_starts` can move strictly downward (from `ANY_BYTE` to the
true first-set), as the concrete run of `c4Program` shows. -/
theorem C4_amended_composite_defaults :
    (∀ (σ : St) (s : Shape),
      (allocNode s).run σ =
        Except.ok (σ.nodes.length,
          { σ with nodes := σ.nodes ++
              [({ shape := s,
                  book_keeping :=
                    { matches_empty := false, possible_starts := ANY_BYTE,
                      could_have_matches := false, derivatives := [],
                      complete := {} } } : Node)] })) ∧
    (∀ (fuel : Nat) (g : NodeId) (σ : St) (n : Node),
      σ.nodes.get? g = some n →
      n.shape.isComposite = true →
      (do_initial_book_keeping (fuel + 1) g).run σ = Except.ok ((), σ)) ∧
    (Except.map Prod.fst (c4Program.run sigma0) =
      Except.ok (5, ANY_BYTE, {}, [97], true) ∧
      [97] ≠ ANY_BYTE ∧ (∀ x ∈ [97], x ∈ ANY_BYTE)) := by
  refine ⟨fun σ s => rfl, ?_, by decide!, by decide, by decide⟩
  intro fuel g σ n hget hshape
  rw [List.get?_eq_getElem?] at hget
  obtain ⟨sh, bk⟩ := n
  rw [show (do_initial_book_keeping (fuel + 1) g).run σ =
      Except.bind ((getNode g).run σ)
        (fun p =>
          ((match p.1.shape with
            | .Any k =>
                if k ≤ 0 then throwAssert
                else do
                  let ds ← anyDerivs fuel (k - 1) ANY_BYTE
                  setBK g { matches_empty := false, possible_starts := ANY_BYTE,
                            could_have_matches := true, derivatives := ds,
                            complete := all_complete }
            | .Chars cs =>
                if cs = [] then throwAssert
                else
                  setBK g { matches_empty := false, possible_starts := cs,
                            could_have_matches := true,
                            derivatives := cs.map (fun c => (c, epsilonId)),
                            complete := all_complete }
            | _ => pure ()) : M Unit).run p.2) from rfl]
  rw [getNode_run, List.get?_eq_getElem?, hget]
  cases sh <;> simp [Node.shape, Shape.isComposite] at hshape <;> rfl

/-- Claim C5's scenario: the four smart-constructor identities at the
grammar `g = chars({97, 98})` (heap id 3). -/
def c5Program : M (NodeId × NodeId × NodeId × NodeId × NodeId) := do
  let a ← chars 99 [97, 98]
  let u ← union 99 [a, nullId]
  let c1 ← cat 99 [a, epsilonId]
  let c2 ← cat 99 [a, nullId]
  let c3 ← cat 99 [epsilonId, a]
  pure (a, u, c1, c2, c3)

/-- C5: `cat(g, epsilon) ≡ g`, `cat(g, null) ≡ null` and
`cat(epsilon, g) ≡ g` do hold by identity at this input, but
`union(g, null) ≡ g` FAILS for a `Chars` grammar: `union` collects the
characters and re-builds the set through `chars(...)`, whose result is
never interned (`INPUT_CACHE` is never written), so the call returns a
fresh structurally equal `Chars` object (id 4) instead of `g` (id 3). -/
theorem C5_union_null_returns_fresh_chars :
    Except.map Prod.fst (c5Program.run sigma0) = Except.ok (3, 4, 3, 0, 3) ∧
    (4 : NodeId) ≠ 3 := by
  refine ⟨by decide!, by decide⟩

/-- Claim C6's scenarios: `x = lazy(λ. x)` (id 3 in the first run), and
the mutual cycle `x = lazy(λ. y); y = lazy(λ. x)` (ids 3 and 4), forcing
only `x` and inspecting `y`'s slot before reading `y.value`. -/
def c6Program1 : M (NodeId × Shape) := do
  let x ← lazy (.ref 3)
  let v ← Lazy.value 99 x
  let nx ← getNode x
  pure (v, nx.shape)

def c6Program2 : M (NodeId × Bool × NodeId) := do
  let x ← lazy (.ref 4)
  let y ← lazy (.ref 3)
  let vx ← Lazy.value 99 x
  let ny ← getNode y
  let forcedY := match ny.shape with
    | .Lazy s => slotForced s
    | _ => false
  let vy ← Lazy.value 99 y
  pure (vx, forcedY, vy)

/-- C6: a lazy whose thunk returns the node itself resolves to `null`
(the walk finds the node in `seen` and patches the slot to the global
`null`, id 0); in the mutual cycle, forcing `x` resolves both to `null`
and leaves `y` marked as forced (`has_been_forced` is true before `y` is
ever read, and its value is `null`). -/
theorem C6_lazy_cycles_resolve_to_null :
    Except.map Prod.fst (c6Program1.run sigma0) =
      Except.ok (0, .Lazy (.valueOf 0)) ∧
    Except.map Prod.fst (c6Program2.run sigma0) =
      Except.ok (0, true, 0) := by
  refine ⟨by decide!, by decide!⟩

/-- C8 counterexample: `cat(42, epsilon)` — a non-grammar child — does
NOT raise: the `(left, Epsilon())` normalization branch of `_cat` returns
the first argument before `Cat.__init__`'s `isinstance` assert can run,
so the call returns the non-grammar `42` unchanged instead of raising. -/
theorem C8_cat_nongrammar_no_raise :
    (catPy 99 [.other 42, .g epsilonId]).run sigma0 =
      Except.ok (PyVal.other 42, sigma0) := by decide!

/-- C8 amended: `any(n)` with `n < 0` raises at construction (the
`assert k > 0` of `do_initial_book_keeping`); forcing a lazy whose thunk
returns a non-grammar raises at the forcing site; a non-grammar child of
`cat`/`union` raises whenever the normalized construction actually
builds a composite node around it (the `isinstance` asserts of
`Cat.__init__` / `Union.__init__`) — but the fast paths that return an
argument unchanged (`cat` with an `Epsilon` neighbour, `union` with a
single surviving child) pass the non-grammar through without raising. -/
theorem C8_amended_construction_errors :
    (any 99 (-1)).run sigma0 = Except.error Err.assertionError ∧
    ((do
      let x ← lazy (.bad 7)
      Lazy.value 99 x : M NodeId)).run sigma0 = Except.error Err.assertionError ∧
    ((do
      let a ← chars 99 [97]
      catPy 99 [.g a, .other 42] : M PyVal)).run sigma0 =
        Except.error Err.assertionError ∧
    (unionPy 99 [.other 42, .other 43]).run sigma0 =
      Except.error Err.assertionError ∧
    Except.map Prod.fst ((catPy 99 [.other 42, .g epsilonId]).run sigma0) =
      Except.ok (PyVal.other 42) ∧
    Except.map Prod.fst ((unionPy 99 [.other 42]).run sigma0) =
      Except.ok (PyVal.other 42) := by
  refine ⟨by decide!, by decide!, by decide!, by decide!, by decide!, by decide!⟩

/-- A one-node state holding a composite (`Cat`) node, for instantiating
the amended C4 statement. -/
def catSt : St := { nodes := [{ shape := .Cat 0 0, book_keeping := {} }] }

theorem C4_amended_composite_defaults_witness :
    (do_initial_book_keeping 1 0).run catSt = Except.ok ((), catSt) :=
  C4_amended_composite_defaults.2.1 0 0 catSt
    { shape := .Cat 0 0, book_keeping := {} } (by decide) (by decide)
